import Mathlib

/-!
Verification of the value/heap substrate of the starlark-rust repository.

The development shallowly embeds:
* the `ValueTypedComplex` typed handle of `starlark/src/values/layout/complex.rs`;
* the signature/default rendering of `starlark_derive/src/module/render/fun.rs`;
* the `VecMap` hashed lookup of `starlark_map/src/vec_map/mod.rs`.

Parts of the repository that the sampled sources depend on but whose code is not
available (the `Value` layout, `downcast_ref`, `Value::freeze`, the `Tracer`,
heap allocation helpers) are modelled from the specification, as marked in the
doc comments of the corresponding definitions.
-/

namespace Starlark

/-- Modelled from the spec: a value handle is an inline immediate, a reference
into the mutable heap, or a reference into a frozen heap (the `Value` layout
itself is not among the sampled sources). -/
inductive Value where
  | immediate (payload : Nat)
  | mutableRef (addr : Nat)
  | frozenRef (addr : Nat)
deriving DecidableEq, Repr

/-- Payload carried by a heap object: a string (for string-bearing objects such
as the test object of `complex.rs`), a single owned `Value` field (as in
`TestValueOfComplex`), or nothing. -/
inductive Payload where
  | str (s : String)
  | field (v : Value)
  | unit
deriving DecidableEq, Repr

/-- A boxed heap object: its dynamic type identity (used for downcast matching)
together with its payload. -/
structure HeapObj where
  typeId : Nat
  payload : Payload
deriving DecidableEq, Repr

/-- The pair of heaps backing values: the mutable per-evaluation arena and the
append-only frozen heap. -/
structure Heaps where
  mutHeap : List HeapObj
  frozenHeap : List HeapObj
deriving DecidableEq, Repr

/-- The heap object a value handle refers to, if any: immediates are not boxed,
references index into their respective heap. -/
def Heaps.objOf (st : Heaps) : Value → Option HeapObj
  | Value.immediate _ => none
  | Value.mutableRef a => st.mutHeap.get? a
  | Value.frozenRef a => st.frozenHeap.get? a

/-- The dynamic type identity currently backing a value, if it is a boxed object. -/
def dynTypeId (st : Heaps) (v : Value) : Option Nat :=
  (st.objOf v).map HeapObj.typeId

/-- Modelled from the spec: `downcast_ref` returns a present reference iff the
runtime type identity recorded with the object equals the target type identity,
and an absent result otherwise, never an error (`Value::downcast_ref` is not
among the sampled sources). -/
def downcast_ref (st : Heaps) (v : Value) (tid : Nat) : Option Payload :=
  match st.objOf v with
  | some o => if o.typeId = tid then some o.payload else none
  | none => none

/-- A complex type family `T`: the type identity of the mutable form `T` and of
the frozen counterpart `T::Frozen`. -/
structure ComplexFamily where
  mutId : Nat
  frozenId : Nat
deriving DecidableEq, Repr

/-- `ValueTypedComplex<T>`: a value which is either a complex mutable value or
a frozen value, wrapping the untyped handle (`complex.rs`). -/
structure ValueTypedComplex where
  value : Value
deriving DecidableEq, Repr

/-- `ValueTypedComplex::new` (`complex.rs` lines 57-67): downcast to `T` or to
`T::Frozen`; on success wrap the value, otherwise return `None`. -/
def ValueTypedComplex.new (fam : ComplexFamily) (st : Heaps) (v : Value) :
    Option ValueTypedComplex :=
  if (downcast_ref st v fam.mutId).isSome || (downcast_ref st v fam.frozenId).isSome then
    some ⟨v⟩
  else
    none

/-- `ValueTypedComplex::to_value` (`complex.rs` lines 70-73): get the value back. -/
def ValueTypedComplex.to_value (h : ValueTypedComplex) : Value :=
  h.value

/-- `ValueTypedComplex::unpack` (`complex.rs` lines 77-87): the mutable arm is
tried first, then the frozen arm; the final branch is the source's
`unreachable!` and is modelled by `none`. -/
def ValueTypedComplex.unpack (fam : ComplexFamily) (st : Heaps) (h : ValueTypedComplex) :
    Option (Sum Payload Payload) :=
  match downcast_ref st h.value fam.mutId with
  | some p => some (Sum.inl p)
  | none =>
    match downcast_ref st h.value fam.frozenId with
    | some p => some (Sum.inr p)
    | none => none

/-- `AllocValue::alloc_value` for `ValueTypedComplex` (`complex.rs` lines
102-111): the heap argument is ignored and the wrapped value returned. -/
def ValueTypedComplex.alloc_value (h : ValueTypedComplex) (_heap : Heaps) : Value :=
  h.value

/-- `UnpackValue::unpack_value` for `ValueTypedComplex` (`complex.rs` lines
118-120): delegates to `new`. -/
def ValueTypedComplex.unpack_value (fam : ComplexFamily) (st : Heaps) (v : Value) :
    Option ValueTypedComplex :=
  ValueTypedComplex.new fam st v

/-- A small concrete state used by witnesses: one mutable object of type 0 and
one frozen object of type 1. -/
def exampleHeaps : Heaps :=
  { mutHeap := [⟨0, Payload.unit⟩], frozenHeap := [⟨1, Payload.unit⟩] }

/-- The example family whose mutable form has identity 0 and frozen form 1. -/
def exampleFam : ComplexFamily := ⟨0, 1⟩

/-- C1: `ValueTypedComplex::<T>::new(v)` is present iff the dynamic type of `v`
is `T` or `T::Frozen`, absent otherwise (never an error), and
`UnpackValue::unpack_value` has exactly the same present/absent behaviour. -/
theorem c1_new_present_iff_dynamic_type (fam : ComplexFamily) (st : Heaps) (v : Value) :
    ((ValueTypedComplex.new fam st v).isSome ↔
      dynTypeId st v = some fam.mutId ∨ dynTypeId st v = some fam.frozenId) ∧
    ValueTypedComplex.unpack_value fam st v = ValueTypedComplex.new fam st v := by
  refine ⟨?_, rfl⟩
  unfold ValueTypedComplex.new downcast_ref dynTypeId
  cases hobj : st.objOf v with
  | none => simp
  | some o =>
    by_cases hm : o.typeId = fam.mutId
    · simp [hm]
    · by_cases hf : o.typeId = fam.frozenId
      · simp [hm, hf]
      · simp [hm, hf]

/-- C3: for a handle constructed by `new`, `unpack` returns the mutable arm
when the value downcasts to `T`, otherwise the frozen arm; the source's
`unreachable!` branch (modelled by `none`) is never taken. -/
theorem c3_unpack_two_armed (fam : ComplexFamily) (st : Heaps) (v : Value)
    (h : ValueTypedComplex) (hnew : ValueTypedComplex.new fam st v = some h) :
    (∃ p, downcast_ref st v fam.mutId = some p ∧
      ValueTypedComplex.unpack fam st h = some (Sum.inl p)) ∨
    (downcast_ref st v fam.mutId = none ∧
      ∃ p, downcast_ref st v fam.frozenId = some p ∧
        ValueTypedComplex.unpack fam st h = some (Sum.inr p)) := by
  unfold ValueTypedComplex.new at hnew
  by_cases hcond :
      (downcast_ref st v fam.mutId).isSome || (downcast_ref st v fam.frozenId).isSome
  · rw [if_pos hcond] at hnew
    cases hnew
    rcases Bool.or_eq_true_iff.mp hcond with hmut | hfro
    · rcases Option.isSome_iff_exists.mp hmut with ⟨p, hp⟩
      exact Or.inl ⟨p, hp, by unfold ValueTypedComplex.unpack; rw [hp]⟩
    · cases hm : downcast_ref st v fam.mutId with
      | some p =>
        exact Or.inl ⟨p, rfl, by unfold ValueTypedComplex.unpack; rw [hm]⟩
      | none =>
        rcases Option.isSome_iff_exists.mp hfro with ⟨p, hp⟩
        refine Or.inr ⟨rfl, p, hp, ?_⟩
        unfold ValueTypedComplex.unpack
        rw [hm, hp]
  · rw [if_neg hcond] at hnew
    exact absurd hnew (by simp)

/-- Witness for C3 at a concrete mutable-arm input. -/
theorem c3_unpack_two_armed_witness :
    (∃ p, downcast_ref exampleHeaps (Value.mutableRef 0) exampleFam.mutId = some p ∧
      ValueTypedComplex.unpack exampleFam exampleHeaps ⟨Value.mutableRef 0⟩ =
        some (Sum.inl p)) ∨
    (downcast_ref exampleHeaps (Value.mutableRef 0) exampleFam.mutId = none ∧
      ∃ p, downcast_ref exampleHeaps (Value.mutableRef 0) exampleFam.frozenId = some p ∧
        ValueTypedComplex.unpack exampleFam exampleHeaps ⟨Value.mutableRef 0⟩ =
          some (Sum.inr p)) :=
  c3_unpack_two_armed exampleFam exampleHeaps (Value.mutableRef 0)
    ⟨Value.mutableRef 0⟩ (by decide)

/-- C9: for a handle produced by `new`, `to_value` returns exactly the original
value, and `alloc_value` ignores the heap argument and also returns it; neither
allocates nor changes the underlying value. -/
theorem c9_to_value_alloc_value_identity (fam : ComplexFamily) (st : Heaps) (v : Value)
    (h : ValueTypedComplex) (hnew : ValueTypedComplex.new fam st v = some h) :
    ValueTypedComplex.to_value h = v ∧
      ∀ hp : Heaps, ValueTypedComplex.alloc_value h hp = v := by
  unfold ValueTypedComplex.new at hnew
  by_cases hcond :
      (downcast_ref st v fam.mutId).isSome || (downcast_ref st v fam.frozenId).isSome
  · rw [if_pos hcond] at hnew
    cases hnew
    exact ⟨rfl, fun _ => rfl⟩
  · rw [if_neg hcond] at hnew
    exact absurd hnew (by simp)

/-- Witness for C9 at a concrete input. -/
theorem c9_to_value_alloc_value_identity_witness :
    ValueTypedComplex.to_value ⟨Value.mutableRef 0⟩ = Value.mutableRef 0 ∧
      ∀ hp : Heaps, ValueTypedComplex.alloc_value ⟨Value.mutableRef 0⟩ hp =
        Value.mutableRef 0 :=
  c9_to_value_alloc_value_identity exampleFam exampleHeaps (Value.mutableRef 0)
    ⟨Value.mutableRef 0⟩ (by decide)

/-- Errors produced by the modelled freezer: a dangling mutable reference, or
the `context("Incorrect type")` failure of `ValueTypedComplex::freeze`. -/
inductive FreezeError where
  | danglingRef
  | incorrectType
deriving DecidableEq, Repr

/-- Modelled from the spec: a freezer carries the per-type-family pairing,
mapping a mutable form's type identity to its frozen counterpart's identity
(the `Freezer` and each type's freeze behaviour are not among the sampled
sources). -/
structure Freezer where
  pairing : Nat → Nat

/-- Modelled from the spec: `Value::freeze` is the identity on immediates and
on already-frozen references; a mutable reference has its object's frozen
counterpart allocated in the target frozen heap (`Value::freeze` is not among
the sampled sources). -/
def freeze_value (fz : Freezer) (st : Heaps) : Value → Except FreezeError (Heaps × Value)
  | Value.immediate p => Except.ok (st, Value.immediate p)
  | Value.frozenRef a => Except.ok (st, Value.frozenRef a)
  | Value.mutableRef a =>
    match st.mutHeap.get? a with
    | none => Except.error FreezeError.danglingRef
    | some o =>
      Except.ok
        ({ st with frozenHeap := st.frozenHeap ++ [⟨fz.pairing o.typeId, o.payload⟩] },
          Value.frozenRef st.frozenHeap.length)

/-- Modelled from the spec: `FrozenValueTyped::new` is the frozen-side typed
downcast — present iff the value is a frozen reference to an object whose type
identity is the requested one (`FrozenValueTyped` is not among the sampled
sources). -/
def FrozenValueTyped.new (tid : Nat) (st : Heaps) (v : Value) : Option Value :=
  match v with
  | Value.frozenRef a =>
    match st.frozenHeap.get? a with
    | some o => if o.typeId = tid then some (Value.frozenRef a) else none
    | none => none
  | _ => none

/-- `Freeze::freeze` for `ValueTypedComplex` (`complex.rs` lines 155-165):
freeze the wrapped value, then re-validate with `FrozenValueTyped::new`,
failing with `Incorrect type` when the downcast fails. -/
def ValueTypedComplex.freeze (fam : ComplexFamily) (fz : Freezer) (st : Heaps)
    (h : ValueTypedComplex) : Except FreezeError (Heaps × Value) :=
  match freeze_value fz st h.value with
  | Except.error e => Except.error e
  | Except.ok (st2, v2) =>
    match FrozenValueTyped.new fam.frozenId st2 v2 with
    | some fv => Except.ok (st2, fv)
    | none => Except.error FreezeError.incorrectType

/-- C2: freezing a typed complex handle whose wrapped value is currently the
mutable form `T` succeeds and yields a typed handle over the frozen
counterpart `T::Frozen`, never a handle of any other type. -/
theorem c2_freeze_mutable_arm (fam : ComplexFamily) (fz : Freezer) (st : Heaps)
    (h : ValueTypedComplex) (a : Nat) (o : HeapObj)
    (hpair : fz.pairing fam.mutId = fam.frozenId)
    (hv : h.value = Value.mutableRef a)
    (ho : st.mutHeap.get? a = some o)
    (ht : o.typeId = fam.mutId) :
    ∃ st2 : Heaps, ∃ fa : Nat,
      ValueTypedComplex.freeze fam fz st h = Except.ok (st2, Value.frozenRef fa) ∧
      dynTypeId st2 (Value.frozenRef fa) = some fam.frozenId := by
  refine ⟨{ st with frozenHeap := st.frozenHeap ++ [⟨fz.pairing o.typeId, o.payload⟩] },
    st.frozenHeap.length, ?_, ?_⟩
  · unfold ValueTypedComplex.freeze freeze_value
    rw [hv]
    simp only [ho]
    unfold FrozenValueTyped.new
    simp [List.getElem?_concat_length, ht, hpair]
  · unfold dynTypeId Heaps.objOf
    simp [List.getElem?_concat_length, ht, hpair]

/-- Witness for C2 at a concrete input. -/
theorem c2_freeze_mutable_arm_witness :
    ∃ st2 : Heaps, ∃ fa : Nat,
      ValueTypedComplex.freeze exampleFam ⟨fun t => t + 1⟩ exampleHeaps
        ⟨Value.mutableRef 0⟩ = Except.ok (st2, Value.frozenRef fa) ∧
      dynTypeId st2 (Value.frozenRef fa) = some exampleFam.frozenId :=
  c2_freeze_mutable_arm exampleFam ⟨fun t => t + 1⟩ exampleHeaps
    ⟨Value.mutableRef 0⟩ 0 ⟨0, Payload.unit⟩ rfl rfl rfl rfl

/-- C8: freezing a value whose tag is already `FrozenRef` is a no-op returning
a frozen value with the same identity (the same address), and the heaps are
untouched. -/
theorem c8_freeze_frozen_idempotent (fz : Freezer) (st : Heaps) (a : Nat) :
    freeze_value fz st (Value.frozenRef a) = Except.ok (st, Value.frozenRef a) :=
  rfl

/-- Modelled from the spec: a tracer relocates mutable-heap addresses during a
compacting pass; the copying-collector contract makes the object at the new
address the object previously at the old one (the `Tracer` is not among the
sampled sources). -/
structure Tracer where
  relocate : Nat → Nat

/-- Modelled from the spec: tracing a value is a no-op on immediates and frozen
references and rewrites the address of a mutable reference in place. -/
def Tracer.trace_value (t : Tracer) : Value → Value
  | Value.immediate p => Value.immediate p
  | Value.mutableRef a => Value.mutableRef (t.relocate a)
  | Value.frozenRef a => Value.frozenRef a

/-- `Trace::trace` for `ValueTypedComplex` (`complex.rs` lines 143-153): trace
the wrapped value through the tracer. -/
def ValueTypedComplex.trace (t : Tracer) (h : ValueTypedComplex) : ValueTypedComplex :=
  ⟨t.trace_value h.value⟩

/-- C4: under the copying-collector contract (objects keep their identity at
relocated addresses, the frozen heap is untouched), tracing a valid typed
complex handle preserves its validity: the post-trace downcast re-validated by
the debug assertion still succeeds. -/
theorem c4_trace_preserves_validity (fam : ComplexFamily) (t : Tracer) (st st2 : Heaps)
    (v : Value) (h : ValueTypedComplex)
    (hreloc : ∀ a, st2.mutHeap.get? (t.relocate a) = st.mutHeap.get? a)
    (hfroz : st2.frozenHeap = st.frozenHeap)
    (hnew : ValueTypedComplex.new fam st v = some h) :
    (ValueTypedComplex.new fam st2 (ValueTypedComplex.trace t h).value).isSome = true := by
  unfold ValueTypedComplex.new at hnew ⊢
  by_cases hcond :
      (downcast_ref st v fam.mutId).isSome || (downcast_ref st v fam.frozenId).isSome
  · rw [if_pos hcond] at hnew
    cases hnew
    have hsame : ∀ tid : Nat,
        downcast_ref st2 (ValueTypedComplex.trace t ⟨v⟩).value tid =
          downcast_ref st v tid := by
      intro tid
      unfold downcast_ref Heaps.objOf ValueTypedComplex.trace Tracer.trace_value
      cases v with
      | immediate p => rfl
      | mutableRef a =>
        dsimp only
        rw [hreloc a]
      | frozenRef a =>
        dsimp only
        rw [hfroz]
    rw [if_pos (by rw [hsame fam.mutId, hsame fam.frozenId]; exact hcond)]
    rfl
  · rw [if_neg hcond] at hnew
    exact absurd hnew (by simp)

/-- Witness for C4 with the identity relocation on the example heaps. -/
theorem c4_trace_preserves_validity_witness :
    (ValueTypedComplex.new exampleFam exampleHeaps
      (ValueTypedComplex.trace ⟨fun a => a⟩ ⟨Value.mutableRef 0⟩).value).isSome = true :=
  c4_trace_preserves_validity exampleFam ⟨fun a => a⟩ exampleHeaps exampleHeaps
    (Value.mutableRef 0) ⟨Value.mutableRef 0⟩ (fun _ => rfl) rfl (by decide)

/-- Modelled from the spec: extracting the string carried by a string-bearing
object (`Value::unpack_str` is not among the sampled sources). -/
def unpack_str (st : Heaps) (v : Value) : Option String :=
  match st.objOf v with
  | some o =>
    match o.payload with
    | Payload.str s => some s
    | _ => none
  | none => none

/-- Errors surfaced by the `test_unpack` native function of the `complex.rs`
test module: the parameter-unpacking type error, the `not a string` context,
and the never-taken branch of `unpack`. -/
inductive TestError where
  | typeError
  | notAString
  | unreachableBranch
deriving DecidableEq, Repr

/-- The `test_unpack` native function of the `complex.rs` test module (lines
205-215): unpack the typed complex parameter, then extract the string held by
whichever arm is returned. -/
def test_unpack (fam : ComplexFamily) (st : Heaps) (v : Value) : Except TestError String :=
  match ValueTypedComplex.unpack_value fam st v with
  | none => Except.error TestError.typeError
  | some h =>
    match ValueTypedComplex.unpack fam st h with
    | some (Sum.inl p) =>
      match p with
      | Payload.field w =>
        match unpack_str st w with
        | some s => Except.ok s
        | none => Except.error TestError.notAString
      | _ => Except.error TestError.notAString
    | some (Sum.inr p) =>
      match p with
      | Payload.field w =>
        match unpack_str st w with
        | some s => Except.ok s
        | none => Except.error TestError.notAString
      | _ => Except.error TestError.notAString
    | none => Except.error TestError.unreachableBranch

/-- The type family of the test object `TestValueOfComplex`: type identity 10
for the mutable form, 11 for the frozen form, with strings at identity 1. -/
def testFamily : ComplexFamily := ⟨10, 11⟩

/-- The heaps set up by the `test_unpack` test (`complex.rs` lines 217-232):
the mutable heap holds the string `test1` and the complex object wrapping it
(`alloc_complex`), the frozen heap holds the string `test2` and the frozen
object wrapping it (`alloc_simple`). -/
def scenarioHeaps : Heaps :=
  { mutHeap := [⟨1, Payload.str "test1"⟩, ⟨10, Payload.field (Value.mutableRef 0)⟩],
    frozenHeap := [⟨1, Payload.str "test2"⟩, ⟨11, Payload.field (Value.frozenRef 0)⟩] }

/-- The binding `x` of the test: the complex object in the mutable heap. -/
def xValue : Value := Value.mutableRef 1

/-- The binding `y` of the test: the frozen object in the frozen heap. -/
def yValue : Value := Value.frozenRef 1

/-- C7: accessing the mutable-heap object and the frozen-heap object through
the typed complex handle extracts the strings `test1` and `test2`
respectively, regardless of which heap backs each value. -/
theorem c7_scenario_a :
    test_unpack testFamily scenarioHeaps xValue = Except.ok "test1" ∧
    test_unpack testFamily scenarioHeaps yValue = Except.ok "test2" :=
  ⟨rfl, rfl⟩

/-- A declared default-argument expression, abstracted by the syntactic shapes
that `render_default_as_frozen_value` (`fun.rs` lines 762-786) distinguishes:
an integer literal, a boolean literal, `NoneOr::None`, a string literal, the
empty-list and empty-map defaults, and any other expression. -/
inductive DefaultExpr where
  | intLit (n : Int)
  | boolLit (b : Bool)
  | noneOrNone
  | strLit (s : String)
  | unpackListDefault
  | smallMapNew
  | other (code : Nat)
deriving DecidableEq, Repr

/-- The frozen-value expression synthesised from a default for documentation
purposes, one constructor per arm of `render_default_as_frozen_value`. -/
inductive FrozenValueExpr where
  | allocInt (n : Int)
  | newBool (b : Bool)
  | newNone
  | constFrozenString (s : String)
  | newEmptyList
  | newEmptyDict
deriving DecidableEq, Repr

/-- `render_default_as_frozen_value` (`fun.rs` lines 762-786): synthesise a
frozen-value representation of a default expression when its shape is
recognised, `None` otherwise. -/
def render_default_as_frozen_value : DefaultExpr → Option FrozenValueExpr
  | DefaultExpr.intLit n => some (FrozenValueExpr.allocInt n)
  | DefaultExpr.boolLit b => some (FrozenValueExpr.newBool b)
  | DefaultExpr.noneOrNone => some FrozenValueExpr.newNone
  | DefaultExpr.strLit s => some (FrozenValueExpr.constFrozenString s)
  | DefaultExpr.unpackListDefault => some FrozenValueExpr.newEmptyList
  | DefaultExpr.smallMapNew => some FrozenValueExpr.newEmptyDict
  | DefaultExpr.other _ => none

/-- A `#[starlark_module]` parameter as `SignatureRegularArgMode::from_star_arg`
inspects it: whether its Rust type is `Option`, whether it is `Value`, and its
declared default, if any. -/
structure StarArg where
  is_option : Bool
  is_value : Bool
  default : Option DefaultExpr
deriving DecidableEq, Repr

/-- The expression stored in the `Defaulted` signature mode: the default
allocated into the frozen heap through the globals builder at registration. -/
inductive SigDefaultExpr where
  | globalsBuilderAlloc (d : DefaultExpr)
deriving DecidableEq, Repr

/-- `SignatureRegularArgMode` (`fun.rs` lines 657-661). -/
inductive SignatureRegularArgMode where
  | required
  | optional
  | defaulted (e : SigDefaultExpr)
deriving DecidableEq, Repr

/-- `SignatureRegularArgMode::from_star_arg` (`fun.rs` lines 663-682): `Option`
parameters are optional; defaulted `Value` parameters have the default
allocated via the globals builder; defaulted non-`Value` parameters are made
optional and the default is substituted at call time. -/
def SignatureRegularArgMode.from_star_arg (arg : StarArg) : SignatureRegularArgMode :=
  if arg.is_option then
    SignatureRegularArgMode.optional
  else
    match arg.default with
    | some d =>
      if arg.is_value then
        SignatureRegularArgMode.defaulted (SigDefaultExpr.globalsBuilderAlloc d)
      else
        SignatureRegularArgMode.optional
    | none => SignatureRegularArgMode.required

/-- C5 counterexample: a non-`Value` parameter with an unrecognised default
expression is compiled to the `Optional` signature mode, and no frozen value is
synthesised for it either, so its default is not placed into a frozen heap at
registration time. -/
theorem c5_counterexample :
    SignatureRegularArgMode.from_star_arg ⟨false, false, some (DefaultExpr.other 0)⟩ =
      SignatureRegularArgMode.optional ∧
    render_default_as_frozen_value (DefaultExpr.other 0) = none :=
  ⟨rfl, rfl⟩

/-- C5 (amended): for a non-`Option` parameter with a declared default, the
default is allocated via the globals builder into a frozen heap at
registration time exactly when the parameter's type is `Value`; otherwise the
parameter is compiled to the optional mode with the default substituted at
call time. -/
theorem c5_default_frozen_heap_amended (arg : StarArg) (d : DefaultExpr)
    (hopt : arg.is_option = false) (hd : arg.default = some d) :
    SignatureRegularArgMode.from_star_arg arg =
      (if arg.is_value then
        SignatureRegularArgMode.defaulted (SigDefaultExpr.globalsBuilderAlloc d)
      else
        SignatureRegularArgMode.optional) := by
  unfold SignatureRegularArgMode.from_star_arg
  rw [hopt, hd]
  simp

/-- Witness for the amended C5 at a concrete `Value`-typed defaulted parameter. -/
theorem c5_default_frozen_heap_amended_witness :
    SignatureRegularArgMode.from_star_arg ⟨false, true, some (DefaultExpr.intLit 3)⟩ =
      (if (⟨false, true, some (DefaultExpr.intLit 3)⟩ : StarArg).is_value then
        SignatureRegularArgMode.defaulted
          (SigDefaultExpr.globalsBuilderAlloc (DefaultExpr.intLit 3))
      else
        SignatureRegularArgMode.optional) :=
  c5_default_frozen_heap_amended ⟨false, true, some (DefaultExpr.intLit 3)⟩
    (DefaultExpr.intLit 3) rfl rfl

/-- Errors flowing through the generated `invoke` method: a failure of the
argument-preparation step (signature parsing or `this` downcast), or a failure
of the inner implementation, identified by a code. -/
inductive InvokeError where
  | missingArgs
  | implFailure (code : Nat)
deriving DecidableEq, Repr

/-- `eval.heap().alloc(v)`: allocate the successful result into the
evaluator's mutable heap, returning the grown heap and the new handle. -/
def heap_alloc (st : Heaps) (o : HeapObj) : Heaps × Value :=
  ({ st with mutHeap := st.mutHeap ++ [o] }, Value.mutableRef st.mutHeap.length)

/-- The `invoke` method generated by `render_fun` (`fun.rs` lines 300-317):
run the preparation statements (`this` downcast and signature parsing, whose
failures propagate), call `invoke_impl` on the bindings, allocate a successful
result into the evaluator's heap, and convert an implementation error. -/
def invoke {A B : Type} (prepare : A → Except InvokeError B)
    (invoke_impl : B → Except InvokeError HeapObj) (conv : InvokeError → InvokeError)
    (st : Heaps) (args : A) : Except InvokeError (Heaps × Value) :=
  match prepare args with
  | Except.error e => Except.error e
  | Except.ok b =>
    match invoke_impl b with
    | Except.ok o => Except.ok (heap_alloc st o)
    | Except.error e => Except.error (conv e)

/-- A preparation step that fails, modelling signature parsing rejecting the
supplied arguments. -/
def prepareMissingArgs : Unit → Except InvokeError Unit :=
  fun _ => Except.error InvokeError.missingArgs

/-- An inner implementation that always succeeds. -/
def implAlwaysOk : Unit → Except InvokeError HeapObj :=
  fun _ => Except.ok ⟨0, Payload.unit⟩

/-- C6 counterexample: with an inner implementation that never fails, the
generated `invoke` still returns an error when argument preparation fails, so
an outcome exists that is neither an allocation of the inner success nor a
conversion of an inner error. -/
theorem c6_counterexample :
    implAlwaysOk () = Except.ok ⟨0, Payload.unit⟩ ∧
    invoke prepareMissingArgs implAlwaysOk id exampleHeaps () =
      Except.error InvokeError.missingArgs :=
  ⟨rfl, rfl⟩

/-- C6 (amended): the generated `invoke` produces exactly one of three
outcomes — an error propagated from argument preparation, the converted error
of the inner implementation, or `Ok` with the inner success allocated into the
evaluator's heap; when preparation succeeds only the last two are possible. -/
theorem c6_invoke_outcomes {A B : Type} (prepare : A → Except InvokeError B)
    (invoke_impl : B → Except InvokeError HeapObj) (conv : InvokeError → InvokeError)
    (st : Heaps) (args : A) :
    (∃ e, prepare args = Except.error e ∧
      invoke prepare invoke_impl conv st args = Except.error e) ∨
    (∃ b e, prepare args = Except.ok b ∧ invoke_impl b = Except.error e ∧
      invoke prepare invoke_impl conv st args = Except.error (conv e)) ∨
    (∃ b o, prepare args = Except.ok b ∧ invoke_impl b = Except.ok o ∧
      invoke prepare invoke_impl conv st args = Except.ok (heap_alloc st o)) := by
  cases hp : prepare args with
  | error e =>
    refine Or.inl ⟨e, rfl, ?_⟩
    unfold invoke
    rw [hp]
  | ok b =>
    cases hi : invoke_impl b with
    | error e =>
      refine Or.inr (Or.inl ⟨b, e, rfl, hi, ?_⟩)
      unfold invoke
      rw [hp]
      dsimp only
      rw [hi]
    | ok o =>
      refine Or.inr (Or.inr ⟨b, o, rfl, hi, ?_⟩)
      unfold invoke
      rw [hp]
      dsimp only
      rw [hi]

/-- A key together with its precomputed hash (`Hashed` of `starlark_map`). -/
structure Hashed (Q : Type) where
  hash : Nat
  key : Q
deriving DecidableEq, Repr

/-- A bucket of `VecMap` (`vec_map/mod.rs` lines 41-45): the stored hash, the
key and the value. -/
structure Bucket (K V : Type) where
  hash : Nat
  key : K
  value : V
deriving DecidableEq, Repr

/-- `VecMap` (`vec_map/mod.rs` lines 57-60): buckets in insertion order. -/
structure VecMap (K V : Type) where
  buckets : List (Bucket K V)
deriving DecidableEq, Repr

/-- The scan loop of `VecMap::get_index_of_hashed_raw` (`vec_map/mod.rs` lines
87-104): walk the buckets with a running index, returning the index of the
first bucket whose stored hash equals the query hash and whose key satisfies
the equality callback. -/
def get_index_of_hashed_raw_from {K V : Type} (hash : Nat) (eq : K → Bool) :
    List (Bucket K V) → Nat → Option Nat
  | [], _ => none
  | b :: bs, i =>
    if b.hash = hash then
      if eq b.key then some i else get_index_of_hashed_raw_from hash eq bs (i + 1)
    else
      get_index_of_hashed_raw_from hash eq bs (i + 1)

/-- `VecMap::get_index_of_hashed_raw` (`vec_map/mod.rs` lines 87-104). -/
def VecMap.get_index_of_hashed_raw {K V : Type} (m : VecMap K V) (hash : Nat)
    (eq : K → Bool) : Option Nat :=
  get_index_of_hashed_raw_from hash eq m.buckets 0

/-- `VecMap::get_index_of_hashed` (`vec_map/mod.rs` lines 106-112): query with
a hashed key, comparing keys with the equivalence relation `eqv`. -/
def VecMap.get_index_of_hashed {K V Q : Type} (eqv : Q → K → Bool) (m : VecMap K V)
    (q : Hashed Q) : Option Nat :=
  m.get_index_of_hashed_raw q.hash (fun k => eqv q.key k)

/-- A bucket that fails the combined hash-and-key test does not stop the scan:
the loop continues at the next index. -/
theorem get_index_from_step {K V : Type} (hash : Nat) (eq : K → Bool) (b : Bucket K V)
    (bs : List (Bucket K V)) (i : Nat) (hnm : ¬(b.hash = hash ∧ eq b.key = true)) :
    get_index_of_hashed_raw_from hash eq (b :: bs) i =
      get_index_of_hashed_raw_from hash eq bs (i + 1) := by
  by_cases hb : b.hash = hash
  · by_cases he : eq b.key = true
    · exact absurd ⟨hb, he⟩ hnm
    · simp [get_index_of_hashed_raw_from, hb, he]
  · simp [get_index_of_hashed_raw_from, hb]

/-- When the scan starting at counter `i` returns `some r`, the bucket at
offset `r - i` matches and every earlier bucket fails the combined test. -/
theorem get_index_from_some {K V : Type} (hash : Nat) (eq : K → Bool) :
    ∀ (bs : List (Bucket K V)) (i r : Nat),
      get_index_of_hashed_raw_from hash eq bs i = some r →
      i ≤ r ∧
        (∃ b, bs.get? (r - i) = some b ∧ b.hash = hash ∧ eq b.key = true) ∧
        ∀ j b2, j < r - i → bs.get? j = some b2 →
          ¬(b2.hash = hash ∧ eq b2.key = true) := by
  intro bs
  induction bs with
  | nil =>
    intro i r h
    exact absurd h (by simp [get_index_of_hashed_raw_from])
  | cons b bs ih =>
    intro i r h
    by_cases hm : b.hash = hash ∧ eq b.key = true
    · have hir : i = r := by
        unfold get_index_of_hashed_raw_from at h
        rw [if_pos hm.1, if_pos hm.2] at h
        exact Option.some_inj.mp h
      subst hir
      refine ⟨Nat.le_refl i, ⟨b, ?_, hm.1, hm.2⟩, ?_⟩
      · simp [Nat.sub_self]
      · intro j b2 hj _
        exact absurd hj (by omega)
    · rw [get_index_from_step hash eq b bs i hm] at h
      obtain ⟨hle, ⟨b2, hget, hb2⟩, hleast⟩ := ih (i + 1) r h
      have hri : r - i = (r - (i + 1)) + 1 := by omega
      refine ⟨by omega, ⟨b2, ?_, hb2⟩, ?_⟩
      · rw [hri]
        simpa using hget
      · intro j b3 hj hgetj
        cases j with
        | zero =>
          have hb3 : b3 = b := by
            have := hgetj
            simp at this
            exact this.symm
          rw [hb3]
          exact hm
        | succ k =>
          have hk : k < r - (i + 1) := by omega
          exact hleast k b3 hk (by simpa using hgetj)

/-- When the scan returns `none`, no bucket passes the combined test. -/
theorem get_index_from_none {K V : Type} (hash : Nat) (eq : K → Bool) :
    ∀ (bs : List (Bucket K V)) (i : Nat),
      get_index_of_hashed_raw_from hash eq bs i = none →
      ∀ j b2, bs.get? j = some b2 → ¬(b2.hash = hash ∧ eq b2.key = true) := by
  intro bs
  induction bs with
  | nil =>
    intro i _ j b2 hget
    simp at hget
  | cons b bs ih =>
    intro i h j b2 hget
    by_cases hm : b.hash = hash ∧ eq b.key = true
    · unfold get_index_of_hashed_raw_from at h
      rw [if_pos hm.1, if_pos hm.2] at h
      exact absurd h (by simp)
    · rw [get_index_from_step hash eq b bs i hm] at h
      cases j with
      | zero =>
        have hb2 : b2 = b := by
          have := hget
          simp at this
          exact this.symm
        rw [hb2]
        exact hm
      | succ k => exact ih (i + 1) h k b2 (by simpa using hget)

/-- C10: `get_index_of_hashed` returns `some i` exactly for the smallest
insertion-order index whose bucket has the query's stored hash and an
equivalent key — buckets whose hash matches but whose key is not equivalent
are skipped — and returns `none` iff no bucket satisfies both conditions. -/
theorem c10_get_index_of_hashed_least {K V Q : Type} (eqv : Q → K → Bool)
    (m : VecMap K V) (q : Hashed Q) :
    (∀ r, VecMap.get_index_of_hashed eqv m q = some r →
      (∃ b, m.buckets.get? r = some b ∧ b.hash = q.hash ∧ eqv q.key b.key = true) ∧
      ∀ j b2, j < r → m.buckets.get? j = some b2 →
        ¬(b2.hash = q.hash ∧ eqv q.key b2.key = true)) ∧
    (VecMap.get_index_of_hashed eqv m q = none ↔
      ∀ j b2, m.buckets.get? j = some b2 →
        ¬(b2.hash = q.hash ∧ eqv q.key b2.key = true)) := by
  constructor
  · intro r h
    obtain ⟨hle, ⟨b, hget, hb⟩, hleast⟩ :=
      get_index_from_some q.hash (fun k => eqv q.key k) m.buckets 0 r h
    rw [Nat.sub_zero] at hget hleast
    exact ⟨⟨b, hget, hb⟩, hleast⟩
  · constructor
    · intro h j b2 hget
      exact get_index_from_none q.hash (fun k => eqv q.key k) m.buckets 0 h j b2 hget
    · intro hall
      cases hres : VecMap.get_index_of_hashed eqv m q with
      | none => rfl
      | some r =>
        obtain ⟨_, ⟨b, hget, hb⟩, _⟩ :=
          get_index_from_some q.hash (fun k => eqv q.key k) m.buckets 0 r hres
        rw [Nat.sub_zero] at hget
        exact absurd ⟨hb.1, hb.2⟩ (hall r b hget)

end Starlark
